import Mathlib

/-!
# skywire node: process manager and management gateway

A shallow embedding of `pkg/node/rpc.go` (the gateway `RPC`) and of the process
manager `mockProcManager` of `pkg/node/rpc_test.go`.

* `uint16` values (`router.ProcID`, ports) are natural numbers; the increment of
  `currentPID` is taken modulo `2^16`.
* A Go `map` is a finite map with distinct keys (`AList`).  Go leaves the order of
  a `range` over a map unspecified; the embedding walks the stored entries and
  the theorems about `ListProcs` are stated independently of that order.
* The loop of `nextFreePID` has no bound, so it is embedded with a fuel
  argument: `none` means that the fuel ran out before the loop returned.
* Go `error` values of collaborators are strings; the error built by `RunProc`
  has a constructor of its own.
-/

namespace Skywire

/-! ## Data model -/

/-- The type `router.ProcID`, a `uint16`. -/
abbrev ProcID := Nat

/-- Number of values of a `uint16`. -/
def pidModulus : Nat := 65536

/-- The fields of `app.Meta` used by the node. -/
structure Meta where
  AppName : String
  AppVersion : String
  ProtocolVersion : String
  Host : List Nat
  deriving DecidableEq, Repr

/-- The fields of `app.ExecConfig` used by the node. -/
structure ExecConfig where
  WorkDir : String
  BinLoc : String
  Args : List String
  deriving DecidableEq, Repr

/-- The data of `mockExecutor` that `Config()` and `Meta()` return. -/
structure mockExecutor where
  meta : Meta
  c : ExecConfig
  deriving DecidableEq, Repr

/-- Method `mockExecutor.Config`. -/
def mockExecutor.Config (m : mockExecutor) : ExecConfig := m.c

/-- Method `mockExecutor.Meta`. -/
def mockExecutor.Meta (m : mockExecutor) : Meta := m.meta

/-- Modelled from the spec: `router.AppProc` is not in the sources. The spec's
ProcessRecord is "the live binding {ProcessID, Port, ExecutorHandle, stopped
flag}"; the manager reads it through `ProcID()` and `Stopped()`. -/
structure AppProc where
  pid : ProcID
  port : Nat
  exec : mockExecutor
  stopped : Bool
  deriving DecidableEq, Repr

/-- Method `AppProc.ProcID`. -/
def AppProc.ProcID (p : AppProc) : ProcID := p.pid

/-- Method `AppProc.Stopped`. -/
def AppProc.Stopped (p : AppProc) : Bool := p.stopped

/-- The type `router.ProcInfo`, as built by `ListProcs`. -/
structure ProcInfo where
  PID : ProcID
  Port : Nat
  ExecConfig : ExecConfig
  Meta : Meta
  deriving DecidableEq, Repr

/-- Errors returned by `RunProc`: its own port error
(`"Port already allocated to pid %d"`) or the error of `router.NewAppProc`. -/
inductive RunError where
  | portAllocated (pid : ProcID)
  | collaborator (msg : String)
  deriving DecidableEq, Repr

/-- A Go map keyed by `uint16`. -/
abbrev GoMap (V : Type) := AList (fun _ : Nat => V)

/-- The struct `mockProcManager`. -/
structure mockProcManager where
  currentPID : ProcID
  procs : GoMap AppProc
  ports : GoMap ProcID
  portOfProc : GoMap Nat
  metas : GoMap Meta
  execs : GoMap mockExecutor

/-- The constructor `newMockProcManager`: zero `currentPID`, empty maps. -/
def newMockProcManager : mockProcManager :=
  { currentPID := 0, procs := ∅, ports := ∅, portOfProc := ∅, metas := ∅, execs := ∅ }

/-! ## Process manager operations -/

/-- Method `procRunning`: the record of `pid` when it is present and not stopped. -/
def procRunning (pm : mockProcManager) (pid : ProcID) : Option AppProc :=
  match pm.procs.lookup pid with
  | some proc => if !proc.Stopped then some proc else none
  | none => none

/-- Method `portAllocated`: looks the port up in `ports`, then asks `procRunning`. -/
def portAllocated (pm : mockProcManager) (port : Nat) : Option AppProc :=
  match pm.ports.lookup port with
  | none => none
  | some pid => procRunning pm pid

/-- The loop of `nextFreePID` over the value of `currentPID`: increment (wrapping
at `2^16`), go round again on zero or on a running identifier, else return. -/
def nextFreePIDLoop (pm : mockProcManager) : Nat → ProcID → Option ProcID
  | 0, _ => none
  | fuel + 1, cur =>
    let cur1 := (cur + 1) % pidModulus
    if cur1 = 0 then nextFreePIDLoop pm fuel cur1
    else if (procRunning pm cur1).isSome then nextFreePIDLoop pm fuel cur1
    else some cur1

/-- Method `nextFreePID`: returns the identifier and the manager with `currentPID`
advanced to it. -/
def nextFreePID (fuel : Nat) (pm : mockProcManager) : Option (ProcID × mockProcManager) :=
  match nextFreePIDLoop pm fuel pm.currentPID with
  | none => none
  | some pid => some (pid, { pm with currentPID := pid })

/-- Modelled from the spec: `router.NewAppProc` is not in the sources. It either
fails with the collaborator's error (`newErr`) or yields a record for the given
port, identifier and executor in state running ("created → running → stopped"). -/
def NewAppProc (newErr : Option String) (port : Nat) (pid : ProcID) (exec : mockExecutor) :
    Except RunError AppProc :=
  match newErr with
  | some msg => .error (.collaborator msg)
  | none => .ok { pid := pid, port := port, exec := exec, stopped := false }

/-- Method `RunProc`. The result is `none` when `nextFreePID` does not return
within the fuel; otherwise the returned value and the manager afterwards. -/
def RunProc (fuel : Nat) (pm : mockProcManager) (newErr : Option String) (port : Nat)
    (exec : mockExecutor) : Option (Except RunError AppProc × mockProcManager) :=
  match nextFreePID fuel pm with
  | none => none
  | some (pid, pm1) =>
    match (if port ≠ 0 then portAllocated pm1 port else none) with
    | some proc => some (.error (.portAllocated proc.ProcID), pm1)
    | none =>
      match NewAppProc newErr port pid exec with
      | .error err => some (.error err, pm1)
      | .ok p =>
        some (.ok p, { pm1 with
          portOfProc := pm1.portOfProc.insert pid port
          execs := pm1.execs.insert pid exec
          procs := pm1.procs.insert pid p })

/-- The body of the loop of `ListProcs` over the entries of `procs`. A missing
executor is a nil interface whose method call panics: `none`. -/
def listProcsFrom (pm : mockProcManager) : List (Σ _ : Nat, AppProc) → Option (List ProcInfo)
  | [] => some []
  | e :: es =>
    if !e.2.Stopped then
      match pm.execs.lookup e.1 with
      | none => none
      | some ex =>
        (listProcsFrom pm es).map fun rest =>
          { PID := e.1, Port := (pm.portOfProc.lookup e.1).getD 0,
            ExecConfig := ex.Config, Meta := ex.Meta } :: rest
    else listProcsFrom pm es

/-- Method `ListProcs`. -/
def ListProcs (pm : mockProcManager) : Option (List ProcInfo) :=
  listProcsFrom pm pm.procs.entries

/-- Modelled from the spec: stopping a process is done by `AppProc.Stop`, which is
not in the sources. "Looks up the record; fails with not-found if absent or
already stopped. Otherwise ... marks the record stopped. The ProcessID and Port
entries are not removed from the index". -/
def stopProc (pm : mockProcManager) (pid : ProcID) : Option mockProcManager :=
  match procRunning pm pid with
  | none => none
  | some proc => some { pm with procs := pm.procs.insert pid { proc with stopped := true } }

/-! ## Management gateway: processes -/

/-- Errors of `Node.StartProc`. -/
inductive NodeError where
  | notFound
  | run (e : RunError)
  deriving DecidableEq, Repr

/-- The fields of `Node` used by the process methods of the gateway. -/
structure Node where
  pm : mockProcManager
  apps : String → Option Meta
  rootBinDir : String

/-- Modelled from the spec: `Node.ListProcs` is not in the sources. The gateway
"delegates to Process Manager ... result or error flows back unchanged". -/
def Node.ListProcs (node : Node) : Option (List ProcInfo) :=
  Skywire.ListProcs node.pm

/-- Method `RPC.ListProcs`: stores the node's list in `out` and returns a nil
error. `none` stands for the panic of `ListProcs`. -/
def RPC.ListProcs (node : Node) : Option (Option NodeError × List ProcInfo) :=
  (node.ListProcs).map fun l => (none, l)

/-- Modelled from the spec: `Node.StartProc` is not in the sources. An unknown
application name is reported as not-found; otherwise an executor is made for the
application and the call is delegated to `RunProc`, whose record's identifier
or error "flows back unchanged". The test pins the executor's configuration:
binary at `rootBinDir/appName`, working directory `appName`. -/
def Node.StartProc (fuel : Nat) (node : Node) (newErr : Option String) (appName : String)
    (args : List String) (port : Nat) : Option ((ProcID × Option NodeError) × Node) :=
  match node.apps appName with
  | none => some ((0, some .notFound), node)
  | some m =>
    let exec : mockExecutor :=
      { meta := m, c := { WorkDir := appName, BinLoc := node.rootBinDir ++ "/" ++ appName,
                          Args := args } }
    match RunProc fuel node.pm newErr port exec with
    | none => none
    | some (.error e, pm1) => some ((0, some (.run e)), { node with pm := pm1 })
    | some (.ok p, pm1) => some ((p.ProcID, none), { node with pm := pm1 })

/-- The struct `StartProcIn`. -/
structure StartProcIn where
  AppName : String
  Args : List String
  Port : Nat

/-- Method `RPC.StartProc`: `*out, err = r.node.StartProc(...)`. -/
def RPC.StartProc (fuel : Nat) (node : Node) (newErr : Option String) (inp : StartProcIn) :
    Option ((ProcID × Option NodeError) × Node) :=
  node.StartProc fuel newErr inp.AppName inp.Args inp.Port

/-! ## Management gateway: transports -/

/-- The type `cipher.PubKey`, an array of bytes. -/
abbrev PubKey := List Nat

/-- The type `uuid.UUID`, an array of bytes. -/
abbrev UUID := List Nat

/-- The type `transport.LogEntry`. -/
structure LogEntry where
  ReceivedBytes : Nat
  SentBytes : Nat
  deriving DecidableEq, Repr

/-- The parts of `transport.ManagedTransport` the gateway reads: `ID`, `Edges()`,
`Type()` and the pointer `LogEntry`. -/
structure ManagedTransport where
  ID : UUID
  Edges : PubKey × PubKey
  Type_ : String
  LogEntry : Option LogEntry
  deriving DecidableEq, Repr

/-- The parts of `transport.Manager` the gateway uses: `Local()`, `Remote(edges)`
(the key and `ok`, here an option) and the transports in the order in which
`WalkTransports` visits them. The package is not in the sources, so these are
parameters. -/
structure TransportManager where
  Local : PubKey
  Remote : PubKey × PubKey → Option PubKey
  transports : List ManagedTransport

/-- The struct `TransportSummary`. -/
structure TransportSummary where
  ID : UUID
  Local : PubKey
  Remote : PubKey
  Type_ : String
  Log : Option LogEntry
  deriving DecidableEq, Repr

/-- The zero value `&TransportSummary{}`. -/
def TransportSummary.zero : TransportSummary :=
  { ID := [], Local := [], Remote := [], Type_ := "", Log := none }

/-- Function `newTransportSummary`. -/
def newTransportSummary (tm : TransportManager) (tp : ManagedTransport) (includeLogs : Bool) :
    TransportSummary :=
  match tm.Remote tp.Edges with
  | none => TransportSummary.zero
  | some remote =>
    let summary : TransportSummary :=
      { ID := tp.ID, Local := tm.Local, Remote := remote, Type_ := tp.Type_, Log := none }
    if includeLogs then { summary with Log := tp.LogEntry } else summary

/-- Modelled from the spec: `transport.Manager.WalkTransports` is not in the
sources. It hands each transport to the walk function in turn and stops at the
first one for which the function returns false. -/
def WalkTransports {σ : Type} (walk : σ → ManagedTransport → σ × Bool) :
    List ManagedTransport → σ → σ
  | [], s => s
  | tp :: rest, s =>
    match walk s tp with
    | (s1, true) => WalkTransports walk rest s1
    | (s1, false) => s1

/-- The struct `TransportsIn`; a nil slice is `none`. -/
structure TransportsIn where
  FilterTypes : Option (List String)
  FilterPubKeys : Option (List PubKey)
  ShowLogs : Bool

/-- The loop of the closure `typeIncluded`. -/
def typeLoop (tType : String) : List String → Bool
  | [] => false
  | ft :: rest => if tType = ft then true else typeLoop tType rest

/-- The closure `typeIncluded` of `RPC.Transports`. -/
def typeIncluded (inp : TransportsIn) (tType : String) : Bool :=
  match inp.FilterTypes with
  | some fts => typeLoop tType fts
  | none => true

/-- The loop of the closure `pkIncluded`. -/
def pkLoop (localPK remotePK : PubKey) : List PubKey → Bool
  | [] => false
  | fpk :: rest => if localPK = fpk ∨ remotePK = fpk then true else pkLoop localPK remotePK rest

/-- The closure `pkIncluded` of `RPC.Transports`. -/
def pkIncluded (inp : TransportsIn) (localPK remotePK : PubKey) : Bool :=
  match inp.FilterPubKeys with
  | some fpks => pkLoop localPK remotePK fpks
  | none => true

/-- The walk function that `RPC.Transports` hands to `WalkTransports`. -/
def transportsWalk (tm : TransportManager) (inp : TransportsIn)
    (out : List TransportSummary) (tp : ManagedTransport) : List TransportSummary × Bool :=
  match tm.Remote tp.Edges with
  | some remote =>
    if typeIncluded inp tp.Type_ && pkIncluded inp tm.Local remote then
      (out ++ [newTransportSummary tm tp inp.ShowLogs], true)
    else (out, true)
  | none => (out, false)

/-- Method `RPC.Transports`: the returned error (always nil) and `*out`. -/
def RPC.Transports (tm : TransportManager) (inp : TransportsIn) (out : List TransportSummary) :
    Option String × List TransportSummary :=
  (none, WalkTransports (transportsWalk tm inp) tm.transports out)

/-- The type `time.Duration`: nanoseconds. -/
abbrev Duration := Int

/-- The constant `time.Second`. -/
def Second : Duration := 1000000000

/-- A `context.Context`, reduced to its deadline, counted from the start of the
call; `none` is a context without deadline. -/
structure Context where
  deadline : Option Duration
  deriving DecidableEq, Repr

/-- The context `context.Background()`. -/
def Context.Background : Context := { deadline := none }

/-- The function `context.WithTimeout`: the earlier of the parent's deadline and
the timeout. -/
def Context.WithTimeout (parent : Context) (timeout : Duration) : Context :=
  match parent.deadline with
  | none => { deadline := some timeout }
  | some d => { deadline := some (min d timeout) }

/-- The struct `AddTransportIn`. -/
structure AddTransportIn where
  RemotePK : PubKey
  TpType : String
  Public : Bool
  Timeout : Duration

/-- The context that `RPC.AddTransport` builds before calling `CreateTransport`. -/
def addTransportCtx (inp : AddTransportIn) : Context :=
  let ctx := Context.Background
  if inp.Timeout > 0 then ctx.WithTimeout (Second * 20) else ctx

/-- Method `RPC.AddTransport`; `CreateTransport` of the transport manager is a
parameter. Returns the error and `*out`. -/
def RPC.AddTransport (tm : TransportManager)
    (CreateTransport : Context → PubKey → String → Bool → Except String ManagedTransport)
    (inp : AddTransportIn) (out : TransportSummary) : Option String × TransportSummary :=
  match CreateTransport (addTransportCtx inp) inp.RemotePK inp.TpType inp.Public with
  | .error err => (some err, out)
  | .ok tp => (none, newTransportSummary tm tp false)

/-! ## Management gateway: loops -/

/-- The type `routing.RouteID`, a `uint32`. -/
abbrev RouteID := Nat

/-- The type `routing.Rule`, a slice of bytes. -/
abbrev Rule := List Nat

/-- The parts of the routing table and of `routing.Rule` that `RPC.Loops` uses;
the package is not in the sources, so they are parameters: the entries that
`RangeRules` visits, in order, and the error it returns; the lookup `Rule`; the
constant `RuleApp` and the methods `Type()` and `RouteID()` of a rule. -/
structure RoutingTable where
  rules : List (RouteID × Rule)
  rangeErr : Option String
  RuleApp : Nat
  ruleType : Rule → Nat
  ruleRouteID : Rule → RouteID
  Rule : RouteID → Except String Rule

/-- The struct `LoopInfo`. -/
structure LoopInfo where
  AppRule : Rule
  FwdRule : Rule
  deriving DecidableEq, Repr

/-- Modelled from the spec: `RangeRules` of the routing table is not in the
sources. It hands each stored entry to the range function until that returns
false, and returns the table's error. -/
def rangeWalk {σ : Type} (rangeFunc : σ → RouteID → Rule → σ × Bool) :
    List (RouteID × Rule) → σ → σ
  | [], s => s
  | (rid, rule) :: rest, s =>
    match rangeFunc s rid rule with
    | (s1, true) => rangeWalk rangeFunc rest s1
    | (s1, false) => s1

/-- The call `rt.RangeRules(fn)`: state after the walk and the returned error. -/
def RangeRules {σ : Type} (rt : RoutingTable)
    (rangeFunc : σ → RouteID → Rule → σ × Bool) (s : σ) : σ × Option String :=
  (rangeWalk rangeFunc rt.rules s, rt.rangeErr)

/-- The range function of `RPC.Loops`: append a `LoopInfo` for an application rule. -/
def loopsRange (rt : RoutingTable) (loops : List LoopInfo) (_rid : RouteID) (rule : Rule) :
    List LoopInfo × Bool :=
  if rt.ruleType rule = rt.RuleApp then (loops ++ [{ AppRule := rule, FwdRule := [] }], true)
  else (loops, true)

/-- The second loop of `RPC.Loops`: resolve the forwarding rule of each entry,
returning at the first error. -/
def loopsResolve (rt : RoutingTable) : List LoopInfo → Except String (List LoopInfo)
  | [] => .ok []
  | l :: rest =>
    match rt.Rule (rt.ruleRouteID l.AppRule) with
    | .error err => .error err
    | .ok rule =>
      match loopsResolve rt rest with
      | .error err => .error err
      | .ok done => .ok ({ l with FwdRule := rule } :: done)

/-- Method `RPC.Loops`: the returned error and `*out`. -/
def RPC.Loops (rt : RoutingTable) (out : List LoopInfo) : Option String × List LoopInfo :=
  match RangeRules rt (loopsRange rt) [] with
  | (_, some err) => (some err, out)
  | (loops, none) =>
    match loopsResolve rt loops with
    | .error err => (some err, out)
    | .ok loops1 => (none, loops1)

/-! ## Scenarios and state predicates used by the theorems -/

/-- The executor of the application "foo" of the test. -/
def fooExec : mockExecutor :=
  { meta := { AppName := "foo", AppVersion := "1.0", ProtocolVersion := "0.0.1", Host := [] },
    c := { WorkDir := "foo", BinLoc := "apps/foo", Args := [] } }

/-- States of the manager that calls of `RunProc` and process stops produce from
`newMockProcManager()`. -/
inductive Reachable : mockProcManager → Prop
  | init : Reachable newMockProcManager
  | run {pm pm1 : mockProcManager} (fuel : Nat) (newErr : Option String) (port : Nat)
      (exec : mockExecutor) (r : Except RunError AppProc) :
      Reachable pm → RunProc fuel pm newErr port exec = some (r, pm1) → Reachable pm1
  | stop {pm pm1 : mockProcManager} (pid : ProcID) :
      Reachable pm → stopProc pm pid = some pm1 → Reachable pm1

/-- No two running records hold the same non-zero port in `portOfProc`. -/
def PortsUnique (pm : mockProcManager) : Prop :=
  ∀ p q : ProcID, p ≠ q → (procRunning pm p).isSome → (procRunning pm q).isSome →
    ∀ port : Nat, pm.portOfProc.lookup p = some port → pm.portOfProc.lookup q = some port →
      port = 0

/-- Every running record of `procs` has an executor in `execs`, so that
`ListProcs` does not call a method of a nil executor. -/
def ExecsCover (pm : mockProcManager) : Prop :=
  ∀ e ∈ pm.procs.entries, e.2.Stopped = false → (pm.execs.lookup e.1).isSome = true

/-- The entry that `ListProcs` builds for the identifier `pid` and its executor. -/
def procInfoOf (pm : mockProcManager) (pid : ProcID) (ex : mockExecutor) : ProcInfo :=
  { PID := pid, Port := (pm.portOfProc.lookup pid).getD 0, ExecConfig := ex.Config,
    Meta := ex.Meta }

/-- The manager `pm` results from calls of `RunProc` on `newMockProcManager()`, of
which `k` returned a record, and from no stop. -/
inductive StartedOnly : mockProcManager → Nat → Prop
  | init : StartedOnly newMockProcManager 0
  | ok {pm pm1 : mockProcManager} {k : Nat} (fuel : Nat) (newErr : Option String) (port : Nat)
      (exec : mockExecutor) (p : AppProc) :
      StartedOnly pm k → RunProc fuel pm newErr port exec = some (.ok p, pm1) →
      StartedOnly pm1 (k + 1)
  | failed {pm pm1 : mockProcManager} {k : Nat} (fuel : Nat) (newErr : Option String)
      (port : Nat) (exec : mockExecutor) (e : RunError) :
      StartedOnly pm k → RunProc fuel pm newErr port exec = some (.error e, pm1) →
      StartedOnly pm1 k

/-- The manager after `n` calls `RunProc(router, 0, exec)` on
`newMockProcManager()`, none of them followed by a stop. -/
def startN : Nat → mockProcManager
  | 0 => newMockProcManager
  | n + 1 =>
    match RunProc pidModulus (startN n) none 0 fooExec with
    | some (_, pm1) => pm1
    | none => startN n

/-- The manager after 65535 starts: every non-zero identifier is running. -/
def fullManager : mockProcManager := startN 65535

/-- A five second timeout of the caller. -/
def fiveSecondsIn : AddTransportIn :=
  { RemotePK := [2], TpType := "messaging", Public := true, Timeout := Second * 5 }

/-- A `CreateTransport` that reports the deadline of the context it is given. -/
def deadlineProbe (ctx : Context) (_pk : PubKey) (_tpType : String) (_public : Bool) :
    Except String ManagedTransport :=
  if ctx.deadline = some (Second * 5) then .error "deadline: 5s"
  else if ctx.deadline = some (Second * 20) then .error "deadline: 20s"
  else if ctx.deadline = none then .error "no deadline"
  else .error "other deadline"

/-- The type filter as the specification words it: absent, or the type is a
member of the filter set. -/
def specTypePasses : Option (List String) → String → Bool
  | none, _ => true
  | some fts, tType => decide (tType ∈ fts)

/-- The identity filter as the specification words it: absent, or the local or
the remote identity is a member of the filter set. -/
def specPKPasses : Option (List PubKey) → PubKey → PubKey → Bool
  | none, _, _ => true
  | some fpks, localPK, remotePK => decide (localPK ∈ fpks ∨ remotePK ∈ fpks)

/-- A transport passes the specification's filter: its remote identity resolves
and both filters let it through. -/
def specIncluded (tm : TransportManager) (inp : TransportsIn) (tp : ManagedTransport) : Bool :=
  match tm.Remote tp.Edges with
  | none => false
  | some remote =>
    specTypePasses inp.FilterTypes tp.Type_ && specPKPasses inp.FilterPubKeys tm.Local remote

/-- The summary of a transport: its identifier, the local key, the resolved
remote key, its type and, when logs are asked for, its log entry. -/
def specSummaryOf (tm : TransportManager) (inp : TransportsIn) (tp : ManagedTransport) :
    TransportSummary :=
  { ID := tp.ID, Local := tm.Local, Remote := (tm.Remote tp.Edges).getD [],
    Type_ := tp.Type_, Log := if inp.ShowLogs then tp.LogEntry else none }

/-- The rules of kind `RuleApp` that `RangeRules` visits, in range order. -/
def appRules (rt : RoutingTable) : List Rule :=
  (rt.rules.map fun e => e.2).filter fun rule => decide (rt.ruleType rule = rt.RuleApp)

/-- A sample routing table: the first byte of a rule is its type (0 for an
application rule), the second its route identifier; route 7 holds a forwarding
rule and no other route holds a rule. -/
def sampleTable (rules : List (RouteID × Rule)) (rangeErr : Option String) : RoutingTable :=
  { rules := rules, rangeErr := rangeErr, RuleApp := 0,
    ruleType := fun rule => rule.headD 1,
    ruleRouteID := fun rule => rule.tail.headD 0,
    Rule := fun rid => if rid = 7 then .ok [1, 9] else .error "rule not found" }

/-- A table with the application rule `[0, 5]`, whose route 5 holds no rule, and a
`RangeRules` that fails. -/
def brokenRangeTable : RoutingTable :=
  sampleTable [(1, [0, 5])] (some "database not open")

/-- A table with a forwarding rule and two application rules: the route of the
first one resolves, the route of the second does not. -/
def danglingTable : RoutingTable :=
  sampleTable [(7, [1, 9]), (2, [0, 7]), (3, [0, 5])] none

/-- A table in which the route of every application rule resolves. -/
def resolvingTable : RoutingTable :=
  sampleTable [(7, [1, 9]), (2, [0, 7]), (4, [0, 7, 3])] none

/-- A manager with local key `[1]` and three transports, each resolving. -/
def sampleTM : TransportManager :=
  { Local := [1]
    Remote := fun edges =>
      if edges.1 = [1] then some edges.2 else if edges.2 = [1] then some edges.1 else none
    transports :=
      [ { ID := [10], Edges := ([1], [2]), Type_ := "messaging", LogEntry := some ⟨5, 6⟩ },
        { ID := [11], Edges := ([3], [1]), Type_ := "native", LogEntry := none },
        { ID := [12], Edges := ([1], [4]), Type_ := "messaging", LogEntry := none } ] }

/-- A request for the transports of type "messaging" that touch key `[4]`. -/
def sampleFilter : TransportsIn :=
  { FilterTypes := some ["messaging"], FilterPubKeys := some [[4], [9]], ShowLogs := true }

/-- A manager whose `currentPID` is the largest `uint16`. -/
def wrapManager : mockProcManager := { newMockProcManager with currentPID := 65535 }

/-- A manager at `currentPID = 65535` whose identifier 1 is running and whose
identifier 2 is stopped. -/
def reuseManager : mockProcManager :=
  { currentPID := 65535
    procs := ((∅ : GoMap AppProc).insert 1
        { pid := 1, port := 10, exec := fooExec, stopped := false }).insert 2
        { pid := 2, port := 0, exec := fooExec, stopped := true }
    ports := ∅
    portOfProc := ((∅ : GoMap Nat).insert 1 10).insert 2 0
    metas := ∅
    execs := ((∅ : GoMap mockExecutor).insert 1 fooExec).insert 2 fooExec }

/-- The record that `RunProc` returns on `reuseManager`. -/
def reuseProc : AppProc := { pid := 2, port := 7, exec := fooExec, stopped := false }

/-- The manager after `RunProc` on `reuseManager`. -/
def reuseManagerAfter : mockProcManager :=
  { currentPID := 2
    procs := reuseManager.procs.insert 2 reuseProc
    ports := reuseManager.ports
    portOfProc := reuseManager.portOfProc.insert 2 7
    metas := reuseManager.metas
    execs := reuseManager.execs.insert 2 fooExec }

/-- The manager after the first start of "foo" on port 10. -/
def oneStartManager : mockProcManager :=
  { currentPID := 1
    procs := (∅ : GoMap AppProc).insert 1 { pid := 1, port := 10, exec := fooExec, stopped := false }
    ports := ∅
    portOfProc := (∅ : GoMap Nat).insert 1 10
    metas := ∅
    execs := (∅ : GoMap mockExecutor).insert 1 fooExec }

/-- The manager after the second start of "foo" on port 10. -/
def twoStartsManager : mockProcManager :=
  { currentPID := 2
    procs := oneStartManager.procs.insert 2
      { pid := 2, port := 10, exec := fooExec, stopped := false }
    ports := ∅
    portOfProc := oneStartManager.portOfProc.insert 2 10
    metas := ∅
    execs := oneStartManager.execs.insert 2 fooExec }

/-- The transports that `WalkTransports` visits before the first one whose
remote identity does not resolve. -/
def resolvingPrefix (tm : TransportManager) : List ManagedTransport :=
  tm.transports.takeWhile fun tp => (tm.Remote tp.Edges).isSome

/-- A manager with local key `[1]` whose second transport has no edge at the
local key, so that its remote identity does not resolve; the first and the
third transport resolve. -/
def brokenWalkTM : TransportManager :=
  { Local := [1]
    Remote := fun edges =>
      if edges.1 = [1] then some edges.2 else if edges.2 = [1] then some edges.1 else none
    transports :=
      [ { ID := [10], Edges := ([1], [2]), Type_ := "messaging", LogEntry := none },
        { ID := [11], Edges := ([3], [5]), Type_ := "messaging", LogEntry := none },
        { ID := [12], Edges := ([1], [4]), Type_ := "messaging", LogEntry := none } ] }

/-- A request without filters and without logs. -/
def noFilter : TransportsIn :=
  { FilterTypes := none, FilterPubKeys := none, ShowLogs := false }

/-! ## The scan of `nextFreePID` -/

theorem nextFreePIDLoop_sound (pm : mockProcManager) :
    ∀ (fuel : Nat) (cur pid : ProcID), nextFreePIDLoop pm fuel cur = some pid →
      ∃ k, 1 ≤ k ∧ k ≤ fuel ∧ pid = (cur + k) % pidModulus ∧ pid ≠ 0 ∧
        procRunning pm pid = none ∧
        ∀ j, 1 ≤ j → j < k →
          (cur + j) % pidModulus = 0 ∨ (procRunning pm ((cur + j) % pidModulus)).isSome := by
  intro fuel
  induction fuel with
  | zero => intro cur pid h; simp [nextFreePIDLoop] at h
  | succ fuel ih =>
    intro cur pid h
    simp only [nextFreePIDLoop] at h
    have step : ∀ j, ((cur + 1) % pidModulus + j) % pidModulus = (cur + (j + 1)) % pidModulus := by
      intro j
      rw [Nat.mod_add_mod]
      congr 1
      omega
    by_cases h0 : (cur + 1) % pidModulus = 0
    · rw [if_pos h0] at h
      obtain ⟨k, hk1, hk2, hk3, hk4, hk5, hk6⟩ := ih _ _ h
      rw [step] at hk3
      refine ⟨k + 1, by omega, by omega, hk3, hk4, hk5, ?_⟩
      intro j hj1 hj2
      rcases Nat.eq_or_lt_of_le hj1 with hj | hj
      · left; rw [← hj]; exact h0
      · have := hk6 (j - 1) (by omega) (by omega)
        rw [step] at this
        have e : j - 1 + 1 = j := by omega
        rw [e] at this
        exact this
    · rw [if_neg h0] at h
      by_cases hr : (procRunning pm ((cur + 1) % pidModulus)).isSome = true
      · rw [if_pos hr] at h
        obtain ⟨k, hk1, hk2, hk3, hk4, hk5, hk6⟩ := ih _ _ h
        rw [step] at hk3
        refine ⟨k + 1, by omega, by omega, hk3, hk4, hk5, ?_⟩
        intro j hj1 hj2
        rcases Nat.eq_or_lt_of_le hj1 with hj | hj
        · right; rw [← hj]; exact hr
        · have := hk6 (j - 1) (by omega) (by omega)
          rw [step] at this
          have e : j - 1 + 1 = j := by omega
          rw [e] at this
          exact this
      · rw [if_neg hr] at h
        have hp : (cur + 1) % pidModulus = pid := by simpa using h
        refine ⟨1, le_refl _, by omega, hp.symm, hp ▸ h0, ?_, ?_⟩
        · rw [← hp]
          cases hq : procRunning pm ((cur + 1) % pidModulus) with
          | none => rfl
          | some v => rw [hq] at hr; simp at hr
        · intro j hj1 hj2; omega

theorem nextFreePIDLoop_first (pm : mockProcManager) :
    ∀ (k fuel : Nat) (cur : ProcID), 1 ≤ k → k ≤ fuel →
      (cur + k) % pidModulus ≠ 0 → procRunning pm ((cur + k) % pidModulus) = none →
      (∀ j, 1 ≤ j → j < k →
        (cur + j) % pidModulus = 0 ∨ (procRunning pm ((cur + j) % pidModulus)).isSome) →
      nextFreePIDLoop pm fuel cur = some ((cur + k) % pidModulus) := by
  intro k
  induction k with
  | zero => intro fuel cur h; omega
  | succ k ih =>
    intro fuel cur _ hfuel hne hfree hbusy
    obtain ⟨fuel, rfl⟩ : ∃ f, fuel = f + 1 := ⟨fuel - 1, by omega⟩
    simp only [nextFreePIDLoop]
    have step : ∀ j, ((cur + 1) % pidModulus + j) % pidModulus = (cur + (j + 1)) % pidModulus := by
      intro j
      rw [Nat.mod_add_mod]
      congr 1
      omega
    rcases Nat.eq_zero_or_pos k with hk | hk
    · subst hk
      rw [if_neg hne]
      simp only [Nat.zero_add] at hfree
      rw [hfree]
      simp
    · have rec : nextFreePIDLoop pm fuel ((cur + 1) % pidModulus) =
          some ((cur + (k + 1)) % pidModulus) := by
        have := ih fuel ((cur + 1) % pidModulus) hk (by omega)
          (by rw [step]; exact hne) (by rw [step]; exact hfree)
          (by
            intro j hj1 hj2
            have := hbusy (j + 1) (by omega) (by omega)
            rw [step]; exact this)
        rw [step] at this
        exact this
      rcases hbusy 1 (le_refl _) (by omega) with h0 | hr
      · rw [if_pos h0]; exact rec
      · by_cases h0 : (cur + 1) % pidModulus = 0
        · rw [if_pos h0]; exact rec
        · rw [if_neg h0, if_pos hr]; exact rec

theorem nextFreePIDLoop_terminates (pm : mockProcManager) (cur t : ProcID)
    (ht0 : t ≠ 0) (htlt : t < pidModulus) (hfree : procRunning pm t = none) :
    ∃ k pid, 1 ≤ k ∧ k ≤ pidModulus ∧ pid = (cur + k) % pidModulus ∧ pid ≠ 0 ∧
      pid < pidModulus ∧ procRunning pm pid = none ∧
      (∀ j, 1 ≤ j → j < k →
        (cur + j) % pidModulus = 0 ∨ (procRunning pm ((cur + j) % pidModulus)).isSome) ∧
      ∀ fuel, k ≤ fuel → nextFreePIDLoop pm fuel cur = some pid := by
  classical
  let P : Nat → Prop := fun k =>
    1 ≤ k ∧ (cur + k) % pidModulus ≠ 0 ∧ procRunning pm ((cur + k) % pidModulus) = none
  obtain ⟨k0, hk0a, hk0b, hk0e⟩ :
      ∃ k0, 1 ≤ k0 ∧ k0 ≤ pidModulus ∧ (cur + k0) % pidModulus = t := by
    have hlt : t < 65536 := htlt
    refine ⟨(t + 65536 - cur % 65536 - 1) % 65536 + 1, ?_, ?_, ?_⟩
    · omega
    · show _ ≤ 65536
      omega
    · have key : ∀ c u : Nat, u < 65536 →
          (c + ((u + 65536 - c % 65536 - 1) % 65536 + 1)) % 65536 = u := by
        intro c u hu
        omega
      exact key cur t hlt
  have hP0 : P k0 := ⟨hk0a, by rw [hk0e]; exact ht0, by rw [hk0e]; exact hfree⟩
  have hex : ∃ k, P k := ⟨k0, hP0⟩
  have hle : Nat.find hex ≤ k0 := Nat.find_min' hex hP0
  obtain ⟨hk1, hk2, hk3⟩ := Nat.find_spec hex
  have hbusy : ∀ j, 1 ≤ j → j < Nat.find hex →
      (cur + j) % pidModulus = 0 ∨ (procRunning pm ((cur + j) % pidModulus)).isSome := by
    intro j hj1 hj2
    have hn : ¬ P j := Nat.find_min hex hj2
    by_cases h0 : (cur + j) % pidModulus = 0
    · exact Or.inl h0
    · right
      cases hq : procRunning pm ((cur + j) % pidModulus) with
      | none => exact absurd ⟨hj1, h0, hq⟩ hn
      | some v => rfl
  refine ⟨Nat.find hex, (cur + Nat.find hex) % pidModulus, hk1, ?_, rfl, hk2, ?_, hk3, hbusy, ?_⟩
  · exact le_trans hle hk0b
  · exact Nat.mod_lt _ (by unfold pidModulus; omega)
  · intro fuel hf
    exact nextFreePIDLoop_first pm _ fuel cur hk1 hf hk2 hk3 hbusy

theorem nextFreePIDLoop_diverges (pm : mockProcManager)
    (hfull : ∀ t, t ≠ 0 → t < pidModulus → (procRunning pm t).isSome) :
    ∀ (fuel : Nat) (cur : ProcID), nextFreePIDLoop pm fuel cur = none := by
  intro fuel
  induction fuel with
  | zero => intro cur; rfl
  | succ fuel ih =>
    intro cur
    simp only [nextFreePIDLoop]
    by_cases h0 : (cur + 1) % pidModulus = 0
    · rw [if_pos h0]; exact ih _
    · rw [if_neg h0, if_pos (hfull _ h0 (Nat.mod_lt _ (by unfold pidModulus; omega)))]
      exact ih _

/-! ## `RunProc` -/

theorem RunProc_ok_inv {fuel : Nat} {pm pm1 : mockProcManager} {newErr : Option String}
    {port : Nat} {exec : mockExecutor} {p : AppProc}
    (h : RunProc fuel pm newErr port exec = some (.ok p, pm1)) :
    ∃ pid, nextFreePIDLoop pm fuel pm.currentPID = some pid ∧
      p = { pid := pid, port := port, exec := exec, stopped := false } ∧
      pm1 = { currentPID := pid, procs := pm.procs.insert pid p, ports := pm.ports,
              portOfProc := pm.portOfProc.insert pid port, metas := pm.metas,
              execs := pm.execs.insert pid exec } := by
  unfold RunProc nextFreePID at h
  cases hl : nextFreePIDLoop pm fuel pm.currentPID with
  | none => rw [hl] at h; simp at h
  | some pid =>
    rw [hl] at h
    simp only at h
    split at h
    · simp at h
    · cases newErr with
      | some msg => simp [NewAppProc] at h
      | none =>
        simp only [NewAppProc, Option.some.injEq, Prod.mk.injEq, Except.ok.injEq] at h
        obtain ⟨hp, hpm⟩ := h
        refine ⟨pid, rfl, hp.symm, ?_⟩
        rw [← hpm, ← hp]

theorem RunProc_returns {fuel : Nat} {pm : mockProcManager} {pid : ProcID}
    (hl : nextFreePIDLoop pm fuel pm.currentPID = some pid) (newErr : Option String)
    (port : Nat) (exec : mockExecutor) :
    ∃ r pm1, RunProc fuel pm newErr port exec = some (r, pm1) ∧
      ∀ p, r = .ok p → p.ProcID = pid := by
  unfold RunProc nextFreePID
  rw [hl]
  simp only
  split
  · exact ⟨_, _, rfl, by intro p hp; cases hp⟩
  · cases newErr with
    | some msg => exact ⟨_, _, rfl, by intro p hp; cases hp⟩
    | none =>
      refine ⟨_, _, rfl, ?_⟩
      intro p hp
      cases hp
      rfl

theorem RunProc_unbound_port {fuel : Nat} {pm : mockProcManager} {pid : ProcID}
    (hl : nextFreePIDLoop pm fuel pm.currentPID = some pid) (exec : mockExecutor) :
    ∃ pm1, RunProc fuel pm none 0 exec =
      some (.ok { pid := pid, port := 0, exec := exec, stopped := false }, pm1) := by
  unfold RunProc nextFreePID
  rw [hl]
  exact ⟨_, rfl⟩

/-! ## C1, C2: ports of running records -/

/-- C1, evaluated on the code: starting from `newMockProcManager()`, two calls
`RunProc(router, 10, exec)` both succeed, with identifiers 1 and 2; in the
resulting reachable state both records are running and `portOfProc` gives port
10 for each, so port uniqueness does not hold in that state. -/
theorem two_running_records_share_port :
    RunProc pidModulus newMockProcManager none 10 fooExec =
      some (.ok { pid := 1, port := 10, exec := fooExec, stopped := false }, oneStartManager) ∧
    RunProc pidModulus oneStartManager none 10 fooExec =
      some (.ok { pid := 2, port := 10, exec := fooExec, stopped := false }, twoStartsManager) ∧
    Reachable twoStartsManager ∧
    (procRunning twoStartsManager 1).isSome = true ∧
    (procRunning twoStartsManager 2).isSome = true ∧
    twoStartsManager.portOfProc.lookup 1 = some 10 ∧
    twoStartsManager.portOfProc.lookup 2 = some 10 ∧
    ¬ PortsUnique twoStartsManager := by
  refine ⟨rfl, rfl, ?_, by decide, by decide, by decide, by decide, ?_⟩
  · exact Reachable.run pidModulus none 10 fooExec _
      (Reachable.run pidModulus none 10 fooExec _ Reachable.init
        (rfl : RunProc pidModulus newMockProcManager none 10 fooExec
          = some (.ok _, oneStartManager)))
      (rfl : RunProc pidModulus oneStartManager none 10 fooExec
        = some (.ok _, twoStartsManager))
  · intro hu
    have := hu 1 2 (by decide) (by decide) (by decide) 10 (by decide) (by decide)
    exact absurd this (by decide)

/-- C2, evaluated on the code: once "foo" runs on port 10 (identifier 1, listed,
port 10 stored for it), `ports` is still empty and `portAllocated(10)` finds
nothing; the second `RunProc(router, 10, exec)` returns a record, not an error,
and `ListProcs` grows from one entry to two. The check itself works on a manager
whose `ports` does hold the port: there `RunProc` returns the port error and
changes nothing but `currentPID`. -/
theorem second_start_on_bound_port_succeeds :
    (procRunning oneStartManager 1).isSome = true ∧
    oneStartManager.portOfProc.lookup 1 = some 10 ∧
    oneStartManager.ports.lookup 10 = none ∧
    portAllocated oneStartManager 10 = none ∧
    (ListProcs oneStartManager).map List.length = some 1 ∧
    RunProc pidModulus oneStartManager none 10 fooExec =
      some (.ok { pid := 2, port := 10, exec := fooExec, stopped := false }, twoStartsManager) ∧
    (ListProcs twoStartsManager).map List.length = some 2 ∧
    (∀ fuel pm newErr port exec proc r pm1, port ≠ 0 → portAllocated pm port = some proc →
      RunProc fuel pm newErr port exec = some (r, pm1) →
      r = .error (.portAllocated proc.ProcID) ∧
        pm1 = { pm with currentPID := pm1.currentPID }) := by
  refine ⟨by decide, by decide, by decide, by decide, by decide, rfl, by decide, ?_⟩
  intro fuel pm newErr port exec proc r pm1 hport halloc hrun
  unfold RunProc nextFreePID at hrun
  cases hl : nextFreePIDLoop pm fuel pm.currentPID with
  | none => rw [hl] at hrun; simp at hrun
  | some pid =>
    rw [hl] at hrun
    have hsame : portAllocated { pm with currentPID := pid } port = some proc := halloc
    simp only [hport, ne_eq, not_false_eq_true, if_true, hsame, Option.some.injEq,
      Prod.mk.injEq] at hrun
    obtain ⟨hr, hpm⟩ := hrun
    exact ⟨hr.symm, by rw [← hpm]⟩

/-! ## C6, C7: the identifier of a new record -/

/-- C6: when some non-zero 16-bit identifier is not bound to a running record,
`nextFreePID` returns (for every fuel of at least `2^16` steps) an identifier
that is not zero; `RunProc` then returns too, a successful `RunProc` gives its
record that identifier, and a start on the unbound port with a working
collaborator is successful. Whenever `RunProc` or `RPC.StartProc` succeeds, the
identifier handed out is not zero. -/
theorem nextFreePID_never_zero (pm : mockProcManager) (t : ProcID)
    (ht0 : t ≠ 0) (htlt : t < pidModulus) (hfree : procRunning pm t = none) :
    (∃ pid, pid ≠ 0 ∧ pid < pidModulus ∧
      (∀ fuel, pidModulus ≤ fuel →
        nextFreePID fuel pm = some (pid, { pm with currentPID := pid })) ∧
      (∀ fuel newErr port exec, pidModulus ≤ fuel →
        ∃ r pm1, RunProc fuel pm newErr port exec = some (r, pm1) ∧
          ∀ p, r = .ok p → p.ProcID = pid) ∧
      (∀ fuel exec, pidModulus ≤ fuel →
        ∃ pm1, RunProc fuel pm none 0 exec =
          some (.ok { pid := pid, port := 0, exec := exec, stopped := false }, pm1))) ∧
    (∀ fuel newErr port exec p pm1,
      RunProc fuel pm newErr port exec = some (.ok p, pm1) → p.ProcID ≠ 0) ∧
    (∀ fuel apps root newErr inp pid node1,
      RPC.StartProc fuel { pm := pm, apps := apps, rootBinDir := root } newErr inp
        = some ((pid, none), node1) → pid ≠ 0) := by
  have hsucc : ∀ fuel newErr port exec p pm1,
      RunProc fuel pm newErr port exec = some (.ok p, pm1) → p.ProcID ≠ 0 := by
    intro fuel newErr port exec p pm1 h
    obtain ⟨pid, hl, hp, -⟩ := RunProc_ok_inv h
    obtain ⟨k, -, -, -, hne, -⟩ := nextFreePIDLoop_sound pm fuel _ _ hl
    rw [hp]
    exact hne
  refine ⟨?_, hsucc, ?_⟩
  · obtain ⟨k, pid, -, hk, -, hne, hlt, -, -, hret⟩ :=
      nextFreePIDLoop_terminates pm pm.currentPID t ht0 htlt hfree
    refine ⟨pid, hne, hlt, ?_, ?_, ?_⟩
    · intro fuel hf
      unfold nextFreePID
      rw [hret fuel (le_trans hk hf)]
    · intro fuel newErr port exec hf
      exact RunProc_returns (hret fuel (le_trans hk hf)) newErr port exec
    · intro fuel exec hf
      exact RunProc_unbound_port (hret fuel (le_trans hk hf)) exec
  · intro fuel apps root newErr inp pid node1 h
    unfold RPC.StartProc Node.StartProc at h
    simp only at h
    split at h
    · simp at h
    · split at h
      · simp at h
      · simp at h
      · rename_i p pm1 hrun
        simp only [Option.some.injEq, Prod.mk.injEq, and_true] at h
        rw [← h.1]
        exact hsucc _ _ _ _ _ _ hrun

/-- C6 at `currentPID = 65535`: the increment wraps to zero, zero is skipped and
identifier 1 is returned. -/
theorem nextFreePID_never_zero_witness :
    (nextFreePID pidModulus wrapManager).map (fun r => r.1) = some 1 ∧
    ((∃ pid, pid ≠ 0 ∧ pid < pidModulus ∧
      (∀ fuel, pidModulus ≤ fuel →
        nextFreePID fuel wrapManager = some (pid, { wrapManager with currentPID := pid })) ∧
      (∀ fuel newErr port exec, pidModulus ≤ fuel →
        ∃ r pm1, RunProc fuel wrapManager newErr port exec = some (r, pm1) ∧
          ∀ p, r = .ok p → p.ProcID = pid) ∧
      (∀ fuel exec, pidModulus ≤ fuel →
        ∃ pm1, RunProc fuel wrapManager none 0 exec =
          some (.ok { pid := pid, port := 0, exec := exec, stopped := false }, pm1))) ∧
    (∀ fuel newErr port exec p pm1,
      RunProc fuel wrapManager newErr port exec = some (.ok p, pm1) → p.ProcID ≠ 0) ∧
    (∀ fuel apps root newErr inp pid node1,
      RPC.StartProc fuel { pm := wrapManager, apps := apps, rootBinDir := root } newErr inp
        = some ((pid, none), node1) → pid ≠ 0)) :=
  ⟨rfl, nextFreePID_never_zero wrapManager 1 (by decide) (by decide) rfl⟩

/-- C7: the identifier of the record that a successful `RunProc` returns is not
bound to a running record of the state before the call (its record is absent or
stopped); every other identifier, so every running one, keeps its `procs`,
`portOfProc` and `execs` entries; and the identifier is the first one that the
cyclic scan from `currentPID` reaches which is neither zero nor running. -/
theorem RunProc_pid_not_running (fuel : Nat) (pm pm1 : mockProcManager)
    (newErr : Option String) (port : Nat) (exec : mockExecutor) (p : AppProc)
    (h : RunProc fuel pm newErr port exec = some (.ok p, pm1)) :
    procRunning pm p.ProcID = none ∧
    (pm.procs.lookup p.ProcID = none ∨
      ∃ old, pm.procs.lookup p.ProcID = some old ∧ old.Stopped = true) ∧
    (∀ q, (procRunning pm q).isSome → q ≠ p.ProcID) ∧
    (∀ q, q ≠ p.ProcID →
      pm1.procs.lookup q = pm.procs.lookup q ∧
      pm1.portOfProc.lookup q = pm.portOfProc.lookup q ∧
      pm1.execs.lookup q = pm.execs.lookup q) ∧
    (∀ q, (procRunning pm q).isSome → procRunning pm1 q = procRunning pm q) ∧
    (∃ k, 1 ≤ k ∧ p.ProcID = (pm.currentPID + k) % pidModulus ∧
      ∀ j, 1 ≤ j → j < k →
        (pm.currentPID + j) % pidModulus = 0 ∨
        (procRunning pm ((pm.currentPID + j) % pidModulus)).isSome) := by
  obtain ⟨pid, hl, hp, hpm⟩ := RunProc_ok_inv h
  obtain ⟨k, hk1, -, hk3, -, hfree, hbusy⟩ := nextFreePIDLoop_sound pm fuel _ _ hl
  have hpid : p.ProcID = pid := by rw [hp]; rfl
  rw [hpid]
  have hne : ∀ q, (procRunning pm q).isSome → q ≠ pid := by
    intro q hq hqp
    rw [hqp, hfree] at hq
    simp at hq
  have hkeep : ∀ q, q ≠ pid →
      pm1.procs.lookup q = pm.procs.lookup q ∧
      pm1.portOfProc.lookup q = pm.portOfProc.lookup q ∧
      pm1.execs.lookup q = pm.execs.lookup q := by
    intro q hq
    rw [hpm]
    exact ⟨AList.lookup_insert_ne hq, AList.lookup_insert_ne hq, AList.lookup_insert_ne hq⟩
  refine ⟨hfree, ?_, hne, hkeep, ?_, k, hk1, hk3, hbusy⟩
  · unfold procRunning at hfree
    cases hq : pm.procs.lookup pid with
    | none => exact Or.inl rfl
    | some old =>
      right
      rw [hq] at hfree
      refine ⟨old, rfl, ?_⟩
      cases hs : old.Stopped with
      | true => rfl
      | false => simp [hs] at hfree
  · intro q hq
    unfold procRunning
    rw [(hkeep q (hne q hq)).1]

/-- C7 on `reuseManager`: the scan passes 0 and the running 1 and hands out the
stopped 2; the running record 1 keeps its entries. -/
theorem RunProc_pid_not_running_witness :
    RunProc pidModulus reuseManager none 7 fooExec = some (.ok reuseProc, reuseManagerAfter) ∧
    (procRunning reuseManager 1).isSome = true ∧
    procRunning reuseManager reuseProc.ProcID = none ∧
    (∀ q, (procRunning reuseManager q).isSome →
      procRunning reuseManagerAfter q = procRunning reuseManager q) :=
  ⟨rfl, by decide,
    (RunProc_pid_not_running pidModulus reuseManager reuseManagerAfter none 7 fooExec
      reuseProc rfl).1,
    (RunProc_pid_not_running pidModulus reuseManager reuseManagerAfter none 7 fooExec
      reuseProc rfl).2.2.2.2.1⟩

/-! ## C8: `ListProcs` -/

theorem RunProc_error_inv {fuel : Nat} {pm pm1 : mockProcManager} {newErr : Option String}
    {port : Nat} {exec : mockExecutor} {e : RunError}
    (h : RunProc fuel pm newErr port exec = some (.error e, pm1)) :
    ∃ pid, pm1 = { pm with currentPID := pid } := by
  unfold RunProc nextFreePID at h
  cases hl : nextFreePIDLoop pm fuel pm.currentPID with
  | none => rw [hl] at h; simp at h
  | some pid =>
    rw [hl] at h
    simp only at h
    split at h
    · simp only [Option.some.injEq, Prod.mk.injEq] at h
      exact ⟨pid, h.2.symm⟩
    · cases newErr with
      | some msg =>
        simp only [NewAppProc, Option.some.injEq, Prod.mk.injEq] at h
        exact ⟨pid, h.2.symm⟩
      | none => simp [NewAppProc] at h

theorem listProcsFrom_spec (pm : mockProcManager) :
    ∀ es : List (Σ _ : Nat, AppProc),
      (∀ e ∈ es, e.2.Stopped = false → (pm.execs.lookup e.1).isSome = true) →
      ∃ l, listProcsFrom pm es = some l ∧
        l.map (fun i => i.PID) = (es.filter fun e => !e.2.Stopped).map (fun e => e.1) ∧
        ∀ i ∈ l, ∃ ex, pm.execs.lookup i.PID = some ex ∧ i = procInfoOf pm i.PID ex := by
  intro es
  induction es with
  | nil => intro _; exact ⟨[], rfl, rfl, by intro i hi; cases hi⟩
  | cons e es ih =>
    intro hcov
    obtain ⟨l, hl, hmap, hinfo⟩ := ih (fun e1 he1 => hcov e1 (List.mem_cons_of_mem _ he1))
    cases hs : e.2.Stopped with
    | true =>
      refine ⟨l, ?_, ?_, hinfo⟩
      · simp only [listProcsFrom, hs]
        simpa using hl
      · rw [List.filter_cons_of_neg (by simp [hs])]
        exact hmap
    | false =>
      have hsome := hcov e (List.mem_cons_self _ _) hs
      obtain ⟨ex, hex⟩ := Option.isSome_iff_exists.mp hsome
      refine ⟨procInfoOf pm e.1 ex :: l, ?_, ?_, ?_⟩
      · simp only [listProcsFrom, hs, hex, hl]
        rfl
      · rw [List.filter_cons_of_pos (by simp [hs])]
        simp only [List.map_cons, hmap]
        rfl
      · intro i hi
        rcases List.mem_cons.mp hi with rfl | hi
        · exact ⟨ex, hex, rfl⟩
        · exact hinfo i hi

theorem ListProcs_spec (pm : mockProcManager) (hcov : ExecsCover pm) :
    ∃ l, ListProcs pm = some l ∧
      (l.map fun i => i.PID).Nodup ∧
      l.length = (pm.procs.entries.filter fun e => !e.2.Stopped).length ∧
      (∀ pid p, pm.procs.lookup pid = some p → p.Stopped = false →
        ∃ ex, pm.execs.lookup pid = some ex ∧ procInfoOf pm pid ex ∈ l ∧
          (l.map fun i => i.PID).count pid = 1) ∧
      (∀ i ∈ l, ∃ p ex, pm.procs.lookup i.PID = some p ∧ p.Stopped = false ∧
        pm.execs.lookup i.PID = some ex ∧ i = procInfoOf pm i.PID ex) ∧
      (∀ pid p, pm.procs.lookup pid = some p → p.Stopped = true → ∀ i ∈ l, i.PID ≠ pid) := by
  obtain ⟨l, hl, hmap, hinfo⟩ := listProcsFrom_spec pm pm.procs.entries hcov
  have hnodup : (l.map fun i => i.PID).Nodup := by
    rw [hmap]
    have hk : (pm.procs.entries.map fun e => e.1).Nodup := pm.procs.nodupKeys
    exact List.Nodup.sublist (List.Sublist.map _ (List.filter_sublist _)) hk
  have hmem : ∀ pid, pid ∈ (l.map fun i => i.PID) ↔
      ∃ p, pm.procs.lookup pid = some p ∧ p.Stopped = false := by
    intro pid
    rw [hmap]
    simp only [List.mem_map, List.mem_filter, Bool.not_eq_eq_eq_not, Bool.not_true]
    constructor
    · rintro ⟨e, ⟨he, hs⟩, rfl⟩
      exact ⟨e.2, AList.mem_lookup_iff.mpr he, hs⟩
    · rintro ⟨p, hp, hs⟩
      exact ⟨⟨pid, p⟩, ⟨AList.mem_lookup_iff.mp hp, hs⟩, rfl⟩
  refine ⟨l, hl, hnodup, ?_, ?_, ?_, ?_⟩
  · have := congrArg List.length hmap
    simpa using this
  · intro pid p hp hs
    have hin : pid ∈ (l.map fun i => i.PID) := (hmem pid).mpr ⟨p, hp, hs⟩
    obtain ⟨i, hi, hipid⟩ := List.mem_map.mp hin
    obtain ⟨ex, hex, hie⟩ := hinfo i hi
    have hipid : i.PID = pid := hipid
    rw [hipid] at hex hie
    exact ⟨ex, hex, hie ▸ hi, List.count_eq_one_of_mem hnodup hin⟩
  · intro i hi
    obtain ⟨ex, hex, hie⟩ := hinfo i hi
    obtain ⟨p, hp, hs⟩ := (hmem i.PID).mp (List.mem_map_of_mem _ hi)
    exact ⟨p, ex, hp, hs, hex, hie⟩
  · intro pid p hp hs i hi hipid
    obtain ⟨q, hq, hqs⟩ := (hmem i.PID).mp (List.mem_map_of_mem _ hi)
    rw [hipid, hp] at hq
    cases hq
    rw [hs] at hqs
    cases hqs

theorem reachable_execs (pm : mockProcManager) (hr : Reachable pm) :
    ∀ pid, (pm.procs.lookup pid).isSome = true → (pm.execs.lookup pid).isSome = true := by
  induction hr with
  | init => intro pid h; simp [newMockProcManager] at h
  | @run pm pm1 fuel newErr port exec r _ hrun ih =>
    intro pid h
    cases r with
    | error e =>
      obtain ⟨q, hq⟩ := RunProc_error_inv hrun
      rw [hq] at h ⊢
      exact ih pid h
    | ok p =>
      obtain ⟨q, -, -, hq⟩ := RunProc_ok_inv hrun
      rw [hq] at h ⊢
      simp only at h ⊢
      by_cases hpq : pid = q
      · rw [hpq, AList.lookup_insert]; rfl
      · rw [AList.lookup_insert_ne hpq] at h ⊢
        exact ih pid h
  | @stop pm pm1 pid0 _ hstop ih =>
    intro pid h
    unfold stopProc at hstop
    cases hq : procRunning pm pid0 with
    | none => rw [hq] at hstop; simp at hstop
    | some proc =>
      rw [hq] at hstop
      simp only [Option.some.injEq] at hstop
      rw [← hstop] at h ⊢
      simp only at h ⊢
      by_cases hpq : pid = pid0
      · apply ih
        rw [hpq]
        unfold procRunning at hq
        cases hl : pm.procs.lookup pid0 with
        | none => rw [hl] at hq; simp at hq
        | some v => rfl
      · rw [AList.lookup_insert_ne hpq] at h
        exact ih pid h

theorem reachable_execsCover (pm : mockProcManager) (hr : Reachable pm) : ExecsCover pm := by
  intro e he _
  apply reachable_execs pm hr
  have : pm.procs.lookup e.1 = some e.2 := AList.mem_lookup_iff.mpr he
  rw [this]
  rfl

theorem startedOnly_inv (pm : mockProcManager) (k : Nat) (hs : StartedOnly pm k) :
    (∀ e ∈ pm.procs.entries, e.2.Stopped = false) ∧ ExecsCover pm ∧
      pm.procs.entries.length = k := by
  induction hs with
  | init => exact ⟨fun e he => (by cases he), fun e he => (by cases he), rfl⟩
  | @failed pm0 pm1 k0 fuel newErr port exec e _ hrun ih =>
    obtain ⟨q, hq⟩ := RunProc_error_inv hrun
    rw [hq]
    exact ih
  | @ok pm0 pm1 k0 fuel newErr port exec p _ hrun ih =>
    obtain ⟨hall, hcov, hlen⟩ := ih
    obtain ⟨q, hl, hp, hq⟩ := RunProc_ok_inv hrun
    obtain ⟨_, -, -, -, -, hfree, -⟩ := nextFreePIDLoop_sound pm0 fuel _ _ hl
    have hnot : q ∉ pm0.procs := by
      intro hmem
      obtain ⟨v, hv⟩ := Option.isSome_iff_exists.mp (AList.lookup_isSome.mpr hmem)
      have hvs : v.Stopped = false := hall ⟨q, v⟩ (AList.mem_lookup_iff.mp hv)
      unfold procRunning at hfree
      rw [hv] at hfree
      simp [hvs] at hfree
    have hent : pm1.procs.entries = ⟨q, p⟩ :: pm0.procs.entries := by
      rw [hq]
      exact AList.insert_entries_of_neg hnot
    refine ⟨?_, ?_, ?_⟩
    · intro e he
      rw [hent] at he
      rcases List.mem_cons.mp he with rfl | he
      · rw [hp]; rfl
      · exact hall e he
    · intro e he hs
      rw [hent] at he
      rw [hq]
      simp only
      by_cases heq : e.1 = q
      · rw [heq, AList.lookup_insert]; rfl
      · rw [AList.lookup_insert_ne heq]
        rcases List.mem_cons.mp he with rfl | he
        · exact absurd rfl heq
        · exact hcov e he hs
    · rw [hent, List.length_cons, hlen]

/-- C8: in every manager state whose running records have an executor (every
state reachable from `newMockProcManager()` is one), `ListProcs` returns a list
in which no identifier occurs twice; each running record of `procs` has exactly
one entry, made of its identifier, the port that `portOfProc` stores for it and
the `Config()` and `Meta()` of its executor; every entry is the entry of a
running record and a stopped record has none. `RPC.ListProcs` returns the same
list with a nil error. After `k` successful starts and no stop the list has `k`
entries. -/
theorem ListProcs_lists_running_records :
    (∀ pm : mockProcManager, ExecsCover pm →
      ∃ l, ListProcs pm = some l ∧
        (∀ apps root, RPC.ListProcs { pm := pm, apps := apps, rootBinDir := root }
          = some (none, l)) ∧
        (l.map fun i => i.PID).Nodup ∧
        l.length = (pm.procs.entries.filter fun e => !e.2.Stopped).length ∧
        (∀ pid p, pm.procs.lookup pid = some p → p.Stopped = false →
          ∃ ex, pm.execs.lookup pid = some ex ∧ procInfoOf pm pid ex ∈ l ∧
            (l.map fun i => i.PID).count pid = 1) ∧
        (∀ i ∈ l, ∃ p ex, pm.procs.lookup i.PID = some p ∧ p.Stopped = false ∧
          pm.execs.lookup i.PID = some ex ∧ i = procInfoOf pm i.PID ex) ∧
        (∀ pid p, pm.procs.lookup pid = some p → p.Stopped = true →
          ∀ i ∈ l, i.PID ≠ pid)) ∧
    (∀ pm : mockProcManager, Reachable pm → ExecsCover pm) ∧
    (∀ (pm : mockProcManager) (k : Nat), StartedOnly pm k →
      ∃ l, ListProcs pm = some l ∧ l.length = k) := by
  refine ⟨?_, reachable_execsCover, ?_⟩
  · intro pm hcov
    obtain ⟨l, hl, h1, h2, h3, h4, h5⟩ := ListProcs_spec pm hcov
    refine ⟨l, hl, ?_, h1, h2, h3, h4, h5⟩
    intro apps root
    simp [RPC.ListProcs, Node.ListProcs, hl]
  · intro pm k hs
    obtain ⟨hall, hcov, hlen⟩ := startedOnly_inv pm k hs
    obtain ⟨l, hl, -, h2, -⟩ := ListProcs_spec pm hcov
    refine ⟨l, hl, ?_⟩
    rw [h2, List.filter_eq_self.mpr, hlen]
    intro e he
    simp [hall e he]

/-- C8 on `reuseManager` (identifier 1 running, identifier 2 stopped): the list
is the single entry of identifier 1. -/
theorem ListProcs_lists_running_records_witness :
    ListProcs reuseManager = some [procInfoOf reuseManager 1 fooExec] ∧
    (∃ l, ListProcs reuseManager = some l ∧
      (∀ apps root, RPC.ListProcs { pm := reuseManager, apps := apps, rootBinDir := root }
        = some (none, l)) ∧
      (l.map fun i => i.PID).Nodup ∧
      l.length = (reuseManager.procs.entries.filter fun e => !e.2.Stopped).length ∧
      (∀ pid p, reuseManager.procs.lookup pid = some p → p.Stopped = false →
        ∃ ex, reuseManager.execs.lookup pid = some ex ∧ procInfoOf reuseManager pid ex ∈ l ∧
          (l.map fun i => i.PID).count pid = 1) ∧
      (∀ i ∈ l, ∃ p ex, reuseManager.procs.lookup i.PID = some p ∧ p.Stopped = false ∧
        reuseManager.execs.lookup i.PID = some ex ∧ i = procInfoOf reuseManager i.PID ex) ∧
      (∀ pid p, reuseManager.procs.lookup pid = some p → p.Stopped = true →
        ∀ i ∈ l, i.PID ≠ pid)) ∧
    StartedOnly twoStartsManager 2 ∧
    ∃ l, ListProcs twoStartsManager = some l ∧ l.length = 2 :=
  ⟨by decide, ListProcs_lists_running_records.1 reuseManager (by unfold ExecsCover; decide),
    StartedOnly.ok pidModulus none 10 fooExec _
      (StartedOnly.ok pidModulus none 10 fooExec _ StartedOnly.init
        (rfl : RunProc pidModulus newMockProcManager none 10 fooExec = some (.ok _, oneStartManager)))
      (rfl : RunProc pidModulus oneStartManager none 10 fooExec = some (.ok _, twoStartsManager)),
    ListProcs_lists_running_records.2.2 twoStartsManager 2
      (StartedOnly.ok pidModulus none 10 fooExec _
        (StartedOnly.ok pidModulus none 10 fooExec _ StartedOnly.init
          (rfl : RunProc pidModulus newMockProcManager none 10 fooExec
            = some (.ok _, oneStartManager)))
        (rfl : RunProc pidModulus oneStartManager none 10 fooExec
          = some (.ok _, twoStartsManager)))⟩

/-! ## C9: the scan has no bound -/

theorem nextFreePID_eq_none {fuel : Nat} {pm : mockProcManager}
    (h : nextFreePIDLoop pm fuel pm.currentPID = none) :
    nextFreePID fuel pm = none ∧
      ∀ newErr port exec, RunProc fuel pm newErr port exec = none := by
  have h1 : nextFreePID fuel pm = none := by unfold nextFreePID; rw [h]
  refine ⟨h1, ?_⟩
  intro newErr port exec
  unfold RunProc
  rw [h1]

theorem startN_inv : ∀ n, n < pidModulus →
    (startN n).currentPID = n ∧
    (∀ t, 1 ≤ t → t ≤ n → (procRunning (startN n) t).isSome = true) ∧
    (∀ t, n < t → (startN n).procs.lookup t = none) ∧
    Reachable (startN n) ∧ StartedOnly (startN n) n := by
  intro n
  induction n with
  | zero =>
    intro _
    refine ⟨rfl, ?_, ?_, Reachable.init, StartedOnly.init⟩
    · intro t h1 h2; omega
    · intro t _; rfl
  | succ n ih =>
    intro hn
    obtain ⟨hcur, hrun, hnone, hreach, hstart⟩ := ih (by omega)
    have hmod : ((startN n).currentPID + 1) % pidModulus = n + 1 := by
      rw [hcur]; exact Nat.mod_eq_of_lt hn
    have hloop : nextFreePIDLoop (startN n) pidModulus (startN n).currentPID = some (n + 1) := by
      have := nextFreePIDLoop_first (startN n) 1 pidModulus (startN n).currentPID (le_refl _)
        (by unfold pidModulus; omega) (by rw [hmod]; exact Nat.succ_ne_zero n)
        (by rw [hmod]; unfold procRunning; rw [hnone (n + 1) (by omega)])
        (by intro j h1 h2; omega)
      rw [hmod] at this
      exact this
    obtain ⟨pm1, hrp⟩ := RunProc_unbound_port hloop fooExec
    have hstep : startN (n + 1) = pm1 := by
      show (match RunProc pidModulus (startN n) none 0 fooExec with
        | some (_, pm1) => pm1
        | none => startN n) = pm1
      rw [hrp]
    obtain ⟨q, hq, hp, hpm⟩ := RunProc_ok_inv hrp
    have hqn : @Eq Nat q (n + 1) := by
      rw [hloop] at hq
      exact (Option.some.inj hq).symm
    rw [hstep]
    refine ⟨?_, ?_, ?_, Reachable.run _ _ _ _ _ hreach hrp, StartedOnly.ok _ _ _ _ _ hstart hrp⟩
    · rw [hpm, hqn]
    · intro t h1 h2
      unfold procRunning
      rw [hpm]
      simp only
      by_cases ht : t = q
      · rw [ht, AList.lookup_insert]; rfl
      · rw [AList.lookup_insert_ne ht]
        exact hrun t h1 (by omega)
    · intro t ht
      rw [hpm]
      simp only
      rw [AList.lookup_insert_ne (by omega)]
      exact hnone t (by omega)

/-- C9, the failing case: after 65535 starts from `newMockProcManager()` (a
reachable state) every non-zero identifier is bound to a running record, and for
no amount of fuel does `nextFreePID` or `RunProc` return: there is no
capacity-exhausted error, the scan goes on forever. -/
theorem RunProc_never_returns_at_capacity :
    Reachable fullManager ∧ StartedOnly fullManager 65535 ∧
    (∀ t, t ≠ 0 → t < pidModulus → (procRunning fullManager t).isSome = true) ∧
    (∀ fuel, nextFreePID fuel fullManager = none) ∧
    (∀ fuel newErr port exec, RunProc fuel fullManager newErr port exec = none) := by
  obtain ⟨-, hrun, -, hreach, hstart⟩ := startN_inv 65535 (by unfold pidModulus; omega)
  have hfull : ∀ t, t ≠ 0 → t < pidModulus → (procRunning fullManager t).isSome = true := by
    intro t h0 hlt
    exact hrun t (by omega) (by unfold pidModulus at hlt; omega)
  have hdiv := nextFreePIDLoop_diverges fullManager hfull
  exact ⟨hreach, hstart, hfull,
    fun fuel => (nextFreePID_eq_none (hdiv fuel _)).1,
    fun fuel => (nextFreePID_eq_none (hdiv fuel _)).2⟩

/-- C9, amended: `nextFreePID` is a scan without bound. When some non-zero 16-bit
identifier is not bound to a running record, it returns after `k` increments of
`currentPID` for some `k ≤ 65536` (with less fuel than `k` it has not returned
yet). When every non-zero identifier is bound to a running record it never
returns, and neither does `RunProc`: no error is produced. -/
theorem nextFreePID_scan_unbounded (pm : mockProcManager) :
    (∀ t, t ≠ 0 → t < pidModulus → procRunning pm t = none →
      ∃ k pid, 1 ≤ k ∧ k ≤ pidModulus ∧
        (∀ fuel, k ≤ fuel → nextFreePID fuel pm = some (pid, { pm with currentPID := pid })) ∧
        (∀ fuel, fuel < k → nextFreePID fuel pm = none)) ∧
    ((∀ t, t ≠ 0 → t < pidModulus → (procRunning pm t).isSome = true) →
      ∀ fuel, nextFreePID fuel pm = none ∧
        ∀ newErr port exec, RunProc fuel pm newErr port exec = none) := by
  constructor
  · intro t ht0 htlt hfree
    obtain ⟨k, pid, hk1, hk, hpid, hne, -, hf, hbusy, hret⟩ :=
      nextFreePIDLoop_terminates pm pm.currentPID t ht0 htlt hfree
    refine ⟨k, pid, hk1, hk, ?_, ?_⟩
    · intro fuel hfuel
      unfold nextFreePID
      rw [hret fuel hfuel]
    · intro fuel hfuel
      cases hl : nextFreePIDLoop pm fuel pm.currentPID with
      | none => exact (nextFreePID_eq_none hl).1
      | some pid1 =>
        exfalso
        obtain ⟨k1, hk1a, hk1b, hk1c, hk1d, hk1e, -⟩ := nextFreePIDLoop_sound pm fuel _ _ hl
        rcases hbusy k1 hk1a (by omega) with h0 | hr
        · rw [← hk1c] at h0; exact hk1d h0
        · rw [← hk1c, hk1e] at hr; simp at hr
  · intro hfull fuel
    exact nextFreePID_eq_none (nextFreePIDLoop_diverges pm hfull fuel _)

/-- C9 amended, on concrete states: from `currentPID = 65535` with nothing
running the scan returns identifier 1; on the full manager it never returns. -/
theorem nextFreePID_scan_unbounded_witness :
    (∃ k pid, 1 ≤ k ∧ k ≤ pidModulus ∧
      (∀ fuel, k ≤ fuel →
        nextFreePID fuel wrapManager = some (pid, { wrapManager with currentPID := pid })) ∧
      (∀ fuel, fuel < k → nextFreePID fuel wrapManager = none)) ∧
    (∀ fuel, nextFreePID fuel fullManager = none ∧
      ∀ newErr port exec, RunProc fuel fullManager newErr port exec = none) :=
  ⟨(nextFreePID_scan_unbounded wrapManager).1 1 (by decide) (by decide) rfl,
    (nextFreePID_scan_unbounded fullManager).2
      (fun t h0 hlt => (startN_inv 65535 (by decide)).2.1 t (by omega)
        (by unfold pidModulus at hlt; omega))⟩

/-! ## C10: the deadline of `AddTransport` -/

/-- C10, evaluated on the code: for a caller timeout of five seconds the context
that `RPC.AddTransport` hands to `CreateTransport` has its deadline twenty
seconds after the start of the call, not five; the same holds for every
positive timeout. Without a positive timeout the context has no deadline. -/
theorem AddTransport_deadline_is_twenty_seconds :
    addTransportCtx fiveSecondsIn = { deadline := some (Second * 20) } ∧
    addTransportCtx fiveSecondsIn ≠ { deadline := some fiveSecondsIn.Timeout } ∧
    (∀ tm out, RPC.AddTransport tm deadlineProbe fiveSecondsIn out
      = (some "deadline: 20s", out)) ∧
    (∀ inp : AddTransportIn, inp.Timeout > 0 →
      addTransportCtx inp = { deadline := some (Second * 20) }) ∧
    (∀ inp : AddTransportIn, inp.Timeout ≤ 0 → addTransportCtx inp = { deadline := none }) := by
  refine ⟨by decide, by decide, ?_, ?_, ?_⟩
  · intro tm out
    rfl
  · intro inp h
    unfold addTransportCtx
    simp only [h, if_true]
    rfl
  · intro inp h
    unfold addTransportCtx
    simp only [not_lt.mpr h, if_false]
    rfl

/-! ## C3: the filter of `Transports` -/

theorem typeLoop_eq (tType : String) (fts : List String) :
    typeLoop tType fts = decide (tType ∈ fts) := by
  induction fts with
  | nil => simp [typeLoop]
  | cons ft rest ih =>
    by_cases h : tType = ft
    · simp [typeLoop, h]
    · simp [typeLoop, h, ih]

theorem pkLoop_eq (localPK remotePK : PubKey) (fpks : List PubKey) :
    pkLoop localPK remotePK fpks = decide (localPK ∈ fpks ∨ remotePK ∈ fpks) := by
  induction fpks with
  | nil => simp [pkLoop]
  | cons fpk rest ih =>
    by_cases h : localPK = fpk ∨ remotePK = fpk
    · have : localPK ∈ fpk :: rest ∨ remotePK ∈ fpk :: rest := by
        rcases h with h | h
        · exact Or.inl (h ▸ List.mem_cons_self _ _)
        · exact Or.inr (h ▸ List.mem_cons_self _ _)
      simp only [pkLoop, if_pos h, this, decide_True]
    · have h1 : localPK ≠ fpk := fun e => h (Or.inl e)
      have h2 : remotePK ≠ fpk := fun e => h (Or.inr e)
      simp only [pkLoop, ih, List.mem_cons, h1, h2, false_or, or_self, if_false]

theorem typeIncluded_eq (inp : TransportsIn) (tType : String) :
    typeIncluded inp tType = specTypePasses inp.FilterTypes tType := by
  unfold typeIncluded specTypePasses
  cases inp.FilterTypes with
  | none => rfl
  | some fts => exact typeLoop_eq tType fts

theorem pkIncluded_eq (inp : TransportsIn) (localPK remotePK : PubKey) :
    pkIncluded inp localPK remotePK = specPKPasses inp.FilterPubKeys localPK remotePK := by
  unfold pkIncluded specPKPasses
  cases inp.FilterPubKeys with
  | none => rfl
  | some fpks => exact pkLoop_eq localPK remotePK fpks

theorem newTransportSummary_resolved (tm : TransportManager) (inp : TransportsIn)
    (tp : ManagedTransport) (remote : PubKey) (h : tm.Remote tp.Edges = some remote) :
    newTransportSummary tm tp inp.ShowLogs = specSummaryOf tm inp tp := by
  unfold newTransportSummary specSummaryOf
  rw [h]
  cases inp.ShowLogs <;> rfl

theorem WalkTransports_transportsWalk (tm : TransportManager) (inp : TransportsIn) :
    ∀ (tps : List ManagedTransport) (out : List TransportSummary),
      WalkTransports (transportsWalk tm inp) tps out =
        out ++ ((tps.takeWhile fun tp => (tm.Remote tp.Edges).isSome).filter
          (specIncluded tm inp)).map (specSummaryOf tm inp) := by
  intro tps
  induction tps with
  | nil => intro out; simp [WalkTransports]
  | cons tp rest ih =>
    intro out
    cases hr : tm.Remote tp.Edges with
    | none =>
      simp [WalkTransports, transportsWalk, hr]
    | some remote =>
      have hinc : specIncluded tm inp tp =
          (typeIncluded inp tp.Type_ && pkIncluded inp tm.Local remote) := by
        unfold specIncluded
        rw [hr, typeIncluded_eq, pkIncluded_eq]
      rw [List.takeWhile_cons_of_pos (by simp [hr])]
      cases hp : (typeIncluded inp tp.Type_ && pkIncluded inp tm.Local remote) with
      | true =>
        rw [List.filter_cons_of_pos (by rw [hinc, hp])]
        simp only [WalkTransports, transportsWalk, hr, hp, if_true, ih, List.map_cons]
        rw [newTransportSummary_resolved tm inp tp remote hr]
        simp
      | false =>
        rw [List.filter_cons_of_neg (by rw [hinc, hp]; simp)]
        simp only [WalkTransports, transportsWalk, hr, hp, ih]
        simp

/-- C3: when the remote identity of every transport of the walk resolves,
`RPC.Transports` returns nil and appends to `out`, in walk order, the summary of
exactly the transports that pass the specification's filter (type filter nil or
the type in it, and key filter nil or the local or the remote key in it); with
both filters nil one summary per transport is appended. -/
theorem Transports_appends_filtered (tm : TransportManager) (inp : TransportsIn)
    (out : List TransportSummary)
    (hres : ∀ tp ∈ tm.transports, (tm.Remote tp.Edges).isSome = true) :
    RPC.Transports tm inp out =
      (none, out ++ (tm.transports.filter (specIncluded tm inp)).map (specSummaryOf tm inp)) ∧
    (∀ tp ∈ tm.transports, specIncluded tm inp tp = true ↔
      ∃ remote, tm.Remote tp.Edges = some remote ∧
        (inp.FilterTypes = none ∨ ∃ fts, inp.FilterTypes = some fts ∧ tp.Type_ ∈ fts) ∧
        (inp.FilterPubKeys = none ∨
          ∃ fpks, inp.FilterPubKeys = some fpks ∧ (tm.Local ∈ fpks ∨ remote ∈ fpks))) ∧
    (inp.FilterTypes = none → inp.FilterPubKeys = none →
      RPC.Transports tm inp out = (none, out ++ tm.transports.map (specSummaryOf tm inp))) := by
  have hwalk : RPC.Transports tm inp out =
      (none, out ++ (tm.transports.filter (specIncluded tm inp)).map (specSummaryOf tm inp)) := by
    unfold RPC.Transports
    rw [WalkTransports_transportsWalk, List.takeWhile_eq_self_iff.mpr hres]
  refine ⟨hwalk, ?_, ?_⟩
  · intro tp _
    unfold specIncluded
    cases hr : tm.Remote tp.Edges with
    | none => simp
    | some remote =>
      simp only [Bool.and_eq_true, Option.some.injEq, exists_eq_left']
      have ht : specTypePasses inp.FilterTypes tp.Type_ = true ↔
          (inp.FilterTypes = none ∨ ∃ fts, inp.FilterTypes = some fts ∧ tp.Type_ ∈ fts) := by
        cases inp.FilterTypes with
        | none => simp [specTypePasses]
        | some fts => simp [specTypePasses]
      have hk : specPKPasses inp.FilterPubKeys tm.Local remote = true ↔
          (inp.FilterPubKeys = none ∨
            ∃ fpks, inp.FilterPubKeys = some fpks ∧ (tm.Local ∈ fpks ∨ remote ∈ fpks)) := by
        cases inp.FilterPubKeys with
        | none => simp [specPKPasses]
        | some fpks => simp [specPKPasses]
      rw [ht, hk]
  · intro h1 h2
    rw [hwalk]
    congr 2
    apply congrArg
    apply List.filter_eq_self.mpr
    intro tp htp
    obtain ⟨remote, hr⟩ := Option.isSome_iff_exists.mp (hres tp htp)
    simp [specIncluded, hr, h1, h2, specTypePasses, specPKPasses]

/-- C3 on a manager with three transports and a request for type "messaging"
touching key `[4]`: only the third transport is summarised. -/
theorem Transports_appends_filtered_witness :
    RPC.Transports sampleTM sampleFilter [] =
      (none, [{ ID := [12], Local := [1], Remote := [4], Type_ := "messaging", Log := none }]) ∧
    RPC.Transports sampleTM sampleFilter [] =
      (none, [] ++ (sampleTM.transports.filter (specIncluded sampleTM sampleFilter)).map
        (specSummaryOf sampleTM sampleFilter)) :=
  ⟨by decide, (Transports_appends_filtered sampleTM sampleFilter [] (by decide)).1⟩

/-! ## C4, C5: `Loops` -/

theorem rangeWalk_loopsRange (rt : RoutingTable) :
    ∀ (rules : List (RouteID × Rule)) (acc : List LoopInfo),
      rangeWalk (loopsRange rt) rules acc =
        acc ++ (((rules.map fun e => e.2).filter
          fun rule => decide (rt.ruleType rule = rt.RuleApp)).map
            fun rule => { AppRule := rule, FwdRule := [] }) := by
  intro rules
  induction rules with
  | nil => intro acc; simp [rangeWalk]
  | cons e rest ih =>
    intro acc
    obtain ⟨rid, rule⟩ := e
    by_cases h : rt.ruleType rule = rt.RuleApp
    · simp [rangeWalk, loopsRange, h, ih]
    · simp [rangeWalk, loopsRange, h, ih]

theorem loopsResolve_ok (rt : RoutingTable) :
    ∀ loops : List LoopInfo,
      (∀ l ∈ loops, ∃ rule, rt.Rule (rt.ruleRouteID l.AppRule) = .ok rule) →
      ∃ done, loopsResolve rt loops = .ok done ∧
        done.map (fun l => l.AppRule) = loops.map (fun l => l.AppRule) ∧
        ∀ l ∈ done, rt.Rule (rt.ruleRouteID l.AppRule) = .ok l.FwdRule := by
  intro loops
  induction loops with
  | nil => intro _; exact ⟨[], rfl, rfl, fun l hl => (by cases hl)⟩
  | cons l rest ih =>
    intro h
    obtain ⟨rule, hrule⟩ := h l (List.mem_cons_self _ _)
    obtain ⟨done, hdone, hmap, hfwd⟩ := ih (fun x hx => h x (List.mem_cons_of_mem _ hx))
    refine ⟨{ l with FwdRule := rule } :: done, ?_, ?_, ?_⟩
    · simp only [loopsResolve, hrule, hdone]
    · simp only [List.map_cons, hmap]
    · intro x hx
      rcases List.mem_cons.mp hx with rfl | hx
      · exact hrule
      · exact hfwd x hx

theorem loopsResolve_error (rt : RoutingTable) :
    ∀ loops : List LoopInfo,
      (∃ l ∈ loops, ∃ err, rt.Rule (rt.ruleRouteID l.AppRule) = .error err) →
      ∃ pre l post err, loops = pre ++ l :: post ∧
        (∀ x ∈ pre, ∃ rule, rt.Rule (rt.ruleRouteID x.AppRule) = .ok rule) ∧
        rt.Rule (rt.ruleRouteID l.AppRule) = .error err ∧
        loopsResolve rt loops = .error err := by
  intro loops
  induction loops with
  | nil => rintro ⟨l, hl, -⟩; cases hl
  | cons l rest ih =>
    rintro ⟨x, hx, err, herr⟩
    cases hl : rt.Rule (rt.ruleRouteID l.AppRule) with
    | error e =>
      refine ⟨[], l, rest, e, rfl, fun y hy => (by cases hy), hl, ?_⟩
      simp only [loopsResolve, hl]
    | ok rule =>
      have hrest : ∃ y ∈ rest, ∃ err, rt.Rule (rt.ruleRouteID y.AppRule) = .error err := by
        rcases List.mem_cons.mp hx with rfl | hx
        · rw [hl] at herr; cases herr
        · exact ⟨x, hx, err, herr⟩
      obtain ⟨pre, a, post, e, hsplit, hpre, ha, hres⟩ := ih hrest
      refine ⟨l :: pre, a, post, e, by rw [hsplit]; rfl, ?_, ha, ?_⟩
      · intro y hy
        rcases List.mem_cons.mp hy with rfl | hy
        · exact ⟨rule, hl⟩
        · exact hpre y hy
      · simp only [loopsResolve, hl, hres]

theorem Loops_range_ok (rt : RoutingTable) (out : List LoopInfo) (h : rt.rangeErr = none) :
    RPC.Loops rt out =
      match loopsResolve rt ((appRules rt).map fun rule => { AppRule := rule, FwdRule := [] }) with
      | .error err => (some err, out)
      | .ok loops1 => (none, loops1) := by
  unfold RPC.Loops RangeRules
  rw [h, rangeWalk_loopsRange]
  simp only [List.nil_append]
  rfl

/-- C4, the failing case: the table holds the application rule `[0, 5]` whose
route 5 has no rule (`rt.Rule` fails with "rule not found"), and `RangeRules`
fails with "database not open"; `Loops` fails with the error of `RangeRules`,
not with the error of `rt.Rule`. -/
theorem Loops_returns_range_error :
    (∃ e ∈ brokenRangeTable.rules, brokenRangeTable.ruleType e.2 = brokenRangeTable.RuleApp ∧
      brokenRangeTable.Rule (brokenRangeTable.ruleRouteID e.2) = .error "rule not found") ∧
    RPC.Loops brokenRangeTable [] = (some "database not open", []) ∧
    RPC.Loops brokenRangeTable [] ≠ (some "rule not found", []) := by
  refine ⟨⟨(1, [0, 5]), by decide, by decide, rfl⟩, rfl, by decide⟩

/-- C4, amended: when some application rule of the table has a route for which
`rt.Rule` fails, `Loops` fails for the whole call and leaves `*out` as it was;
it never succeeds. The error is the one of `RangeRules` when `RangeRules` fails;
otherwise it is the error of `rt.Rule` for the first application rule, in range
order, whose route does not resolve. -/
theorem Loops_strict_join (rt : RoutingTable) (out : List LoopInfo)
    (h : ∃ e ∈ rt.rules, rt.ruleType e.2 = rt.RuleApp ∧
      ∃ err, rt.Rule (rt.ruleRouteID e.2) = .error err) :
    (∃ err, RPC.Loops rt out = (some err, out)) ∧
    (∀ e0, rt.rangeErr = some e0 → RPC.Loops rt out = (some e0, out)) ∧
    (rt.rangeErr = none →
      ∃ pre a post err, appRules rt = pre ++ a :: post ∧
        (∀ x ∈ pre, ∃ rule, rt.Rule (rt.ruleRouteID x) = .ok rule) ∧
        rt.Rule (rt.ruleRouteID a) = .error err ∧
        RPC.Loops rt out = (some err, out)) := by
  have hrange : ∀ e0, rt.rangeErr = some e0 → RPC.Loops rt out = (some e0, out) := by
    intro e0 he0
    unfold RPC.Loops RangeRules
    rw [he0]
  have hnone : rt.rangeErr = none →
      ∃ pre a post err, appRules rt = pre ++ a :: post ∧
        (∀ x ∈ pre, ∃ rule, rt.Rule (rt.ruleRouteID x) = .ok rule) ∧
        rt.Rule (rt.ruleRouteID a) = .error err ∧
        RPC.Loops rt out = (some err, out) := by
    intro hn
    obtain ⟨e, he, happ, err, herr⟩ := h
    have hmem : e.2 ∈ appRules rt := by
      unfold appRules
      rw [List.mem_filter]
      exact ⟨List.mem_map_of_mem _ he, by simpa using happ⟩
    obtain ⟨pre, a, post, err1, hsplit, hpre, ha, hres⟩ :=
      loopsResolve_error rt ((appRules rt).map fun rule => { AppRule := rule, FwdRule := [] })
        ⟨{ AppRule := e.2, FwdRule := [] }, List.mem_map_of_mem _ hmem, err, herr⟩
    refine ⟨pre.map (fun l => l.AppRule), a.AppRule, post.map (fun l => l.AppRule), err1,
      ?_, ?_, ha, ?_⟩
    · have := congrArg (List.map fun l : LoopInfo => l.AppRule) hsplit
      simpa [List.map_map, Function.comp_def] using this
    · intro x hx
      obtain ⟨l, hl, rfl⟩ := List.mem_map.mp hx
      exact hpre l hl
    · rw [Loops_range_ok rt out hn, hres]
  refine ⟨?_, hrange, hnone⟩
  cases hr : rt.rangeErr with
  | some e0 => exact ⟨e0, hrange e0 hr⟩
  | none =>
    obtain ⟨_, _, _, err, _, _, _, hl⟩ := hnone hr
    exact ⟨err, hl⟩

/-- C4 amended, on a table whose first application rule resolves and whose
second does not: the call fails with the error of `rt.Rule` and `*out` keeps
its old content. -/
theorem Loops_strict_join_witness :
    RPC.Loops danglingTable [{ AppRule := [0, 1], FwdRule := [1, 1] }] =
      (some "rule not found", [{ AppRule := [0, 1], FwdRule := [1, 1] }]) ∧
    ∃ err, RPC.Loops danglingTable [{ AppRule := [0, 1], FwdRule := [1, 1] }] =
      (some err, [{ AppRule := [0, 1], FwdRule := [1, 1] }]) :=
  ⟨by decide,
    (Loops_strict_join danglingTable [{ AppRule := [0, 1], FwdRule := [1, 1] }]
      ⟨(3, [0, 5]), by decide, by decide, "rule not found", rfl⟩).1⟩

/-- C5: when `RangeRules` succeeds and the route of every application rule
resolves, `Loops` returns nil and sets `*out` to a list with one `LoopInfo` per
rule of kind `RuleApp`, in range order and none for other rules, whose `AppRule`
is that rule and whose `FwdRule` is the rule that `rt.Rule` returns for
`AppRule.RouteID()`. -/
theorem Loops_lists_app_rules (rt : RoutingTable) (out : List LoopInfo)
    (hrange : rt.rangeErr = none)
    (hres : ∀ e ∈ rt.rules, rt.ruleType e.2 = rt.RuleApp →
      ∃ rule, rt.Rule (rt.ruleRouteID e.2) = .ok rule) :
    ∃ loops, RPC.Loops rt out = (none, loops) ∧
      loops.map (fun l => l.AppRule) = appRules rt ∧
      loops.length = (appRules rt).length ∧
      ∀ l ∈ loops, rt.Rule (rt.ruleRouteID l.AppRule) = .ok l.FwdRule := by
  have hall : ∀ l ∈ (appRules rt).map (fun rule => ({ AppRule := rule, FwdRule := [] } : LoopInfo)),
      ∃ rule, rt.Rule (rt.ruleRouteID l.AppRule) = .ok rule := by
    intro l hl
    obtain ⟨rule, hrule, rfl⟩ := List.mem_map.mp hl
    unfold appRules at hrule
    obtain ⟨hin, happ⟩ := List.mem_filter.mp hrule
    obtain ⟨e, he, rfl⟩ := List.mem_map.mp hin
    exact hres e he (by simpa using happ)
  obtain ⟨done, hdone, hmap, hfwd⟩ := loopsResolve_ok rt _ hall
  have hmap1 : done.map (fun l => l.AppRule) = appRules rt := by
    rw [hmap, List.map_map]
    simp [Function.comp_def]
  refine ⟨done, ?_, hmap1, ?_, hfwd⟩
  · rw [Loops_range_ok rt out hrange, hdone]
  · have := congrArg List.length hmap1
    simpa using this

/-- C5 on a table with one forwarding rule and two application rules that both
point at route 7. -/
theorem Loops_lists_app_rules_witness :
    RPC.Loops resolvingTable [] =
      (none, [{ AppRule := [0, 7], FwdRule := [1, 9] },
              { AppRule := [0, 7, 3], FwdRule := [1, 9] }]) ∧
    ∃ loops, RPC.Loops resolvingTable [] = (none, loops) ∧
      loops.map (fun l => l.AppRule) = appRules resolvingTable ∧
      loops.length = (appRules resolvingTable).length ∧
      ∀ l ∈ loops, resolvingTable.Rule (resolvingTable.ruleRouteID l.AppRule) = .ok l.FwdRule :=
  ⟨by decide, Loops_lists_app_rules resolvingTable [] rfl (by
    intro e he happ
    have hcases : e = (7, [1, 9]) ∨ e = (2, [0, 7]) ∨ e = (4, [0, 7, 3]) := by
      simpa [resolvingTable, sampleTable] using he
    rcases hcases with rfl | rfl | rfl
    · exact absurd happ (by decide)
    · exact ⟨[1, 9], rfl⟩
    · exact ⟨[1, 9], rfl⟩)⟩

/-! ## C11: the walk of `Transports` stops at an unresolved transport -/

theorem takeWhile_split {α : Type} (p : α → Bool) :
    ∀ (pre : List α) (a : α) (post : List α), (∀ x ∈ pre, p x = true) → p a = false →
      (pre ++ a :: post).takeWhile p = pre := by
  intro pre
  induction pre with
  | nil =>
    intro a post _ ha
    simp [List.takeWhile_cons, ha]
  | cons x rest ih =>
    intro a post hpre ha
    rw [List.cons_append, List.takeWhile_cons_of_pos (hpre x (List.mem_cons_self _ _)),
      ih a post (fun y hy => hpre y (List.mem_cons_of_mem _ hy)) ha]

theorem specSummaryOf_fields (tm : TransportManager) (inp : TransportsIn)
    (tp : ManagedTransport) (remote : PubKey) (h : tm.Remote tp.Edges = some remote) :
    specSummaryOf tm inp tp =
      { ID := tp.ID, Local := tm.Local, Remote := remote, Type_ := tp.Type_,
        Log := if inp.ShowLogs then tp.LogEntry else none } := by
  unfold specSummaryOf
  rw [h]
  rfl

/-- C11: for every walk order and every input `Transports` returns nil and
appends to `out` exactly the summaries of the filter-passing transports of the
prefix of the walk before the first transport whose remote identity does not
resolve; for that transport the walk function appends nothing and asks the walk
to stop, so the transports after it are left out even when they resolve and
pass both filters. No appended summary is the empty summary that
`newTransportSummary` returns for an unresolved transport: each one is built
for a transport of that prefix whose remote identity resolves and carries its
identifier, the local key, the resolved remote key and its type. -/
theorem Transports_stops_at_unresolved (tm : TransportManager) (inp : TransportsIn)
    (out : List TransportSummary) :
    RPC.Transports tm inp out =
      (none, out ++ ((resolvingPrefix tm).filter (specIncluded tm inp)).map
        (specSummaryOf tm inp)) ∧
    (∀ acc tp, tm.Remote tp.Edges = none → transportsWalk tm inp acc tp = (acc, false)) ∧
    (∀ pre tp post, tm.transports = pre ++ tp :: post →
      (∀ x ∈ pre, (tm.Remote x.Edges).isSome = true) → tm.Remote tp.Edges = none →
      resolvingPrefix tm = pre ∧
      RPC.Transports tm inp out =
        (none, out ++ (pre.filter (specIncluded tm inp)).map (specSummaryOf tm inp))) ∧
    (∀ s ∈ ((resolvingPrefix tm).filter (specIncluded tm inp)).map (specSummaryOf tm inp),
      ∃ tp ∈ resolvingPrefix tm, ∃ remote,
        tm.Remote tp.Edges = some remote ∧ specIncluded tm inp tp = true ∧
        s = newTransportSummary tm tp inp.ShowLogs ∧
        s = { ID := tp.ID, Local := tm.Local, Remote := remote, Type_ := tp.Type_,
              Log := if inp.ShowLogs then tp.LogEntry else none } ∧
        (tp.ID ≠ [] ∨ tm.Local ≠ [] ∨ remote ≠ [] ∨ tp.Type_ ≠ "" →
          s ≠ TransportSummary.zero)) := by
  have hwalk : RPC.Transports tm inp out =
      (none, out ++ ((resolvingPrefix tm).filter (specIncluded tm inp)).map
        (specSummaryOf tm inp)) := by
    unfold RPC.Transports resolvingPrefix
    rw [WalkTransports_transportsWalk]
  refine ⟨hwalk, ?_, ?_, ?_⟩
  · intro acc tp htp
    unfold transportsWalk
    rw [htp]
  · intro pre tp post hsplit hpre htp
    have hp : resolvingPrefix tm = pre := by
      unfold resolvingPrefix
      rw [hsplit]
      exact takeWhile_split _ pre tp post hpre (by rw [htp]; rfl)
    exact ⟨hp, by rw [hwalk, hp]⟩
  · intro s hs
    obtain ⟨tp, htp, rfl⟩ := List.mem_map.mp hs
    obtain ⟨hin, hinc⟩ := List.mem_filter.mp htp
    cases hr : tm.Remote tp.Edges with
    | none => simp [specIncluded, hr] at hinc
    | some remote =>
      have hfields := specSummaryOf_fields tm inp tp remote hr
      refine ⟨tp, hin, remote, hr, hinc,
        (newTransportSummary_resolved tm inp tp remote hr).symm, hfields, ?_⟩
      intro hnz hzero
      rw [hfields] at hzero
      unfold TransportSummary.zero at hzero
      simp only [TransportSummary.mk.injEq] at hzero
      obtain ⟨h1, h2, h3, h4, -⟩ := hzero
      rcases hnz with h | h | h | h
      · exact h h1
      · exact h h2
      · exact h h3
      · exact h h4

/-- C11 on a walk whose second transport does not resolve: only the first
transport is summarised, with all its fields; the third one, which resolves and
passes, is left out. -/
theorem Transports_stops_at_unresolved_witness :
    RPC.Transports brokenWalkTM noFilter [] =
      (none, [{ ID := [10], Local := [1], Remote := [2], Type_ := "messaging", Log := none }]) ∧
    specIncluded brokenWalkTM noFilter
      { ID := [12], Edges := ([1], [4]), Type_ := "messaging", LogEntry := none } = true ∧
    resolvingPrefix brokenWalkTM =
      [{ ID := [10], Edges := ([1], [2]), Type_ := "messaging", LogEntry := none }] ∧
    RPC.Transports brokenWalkTM noFilter [] =
      (none, [] ++ ((resolvingPrefix brokenWalkTM).filter (specIncluded brokenWalkTM noFilter)).map
        (specSummaryOf brokenWalkTM noFilter)) :=
  ⟨by decide, by decide,
    ((Transports_stops_at_unresolved brokenWalkTM noFilter []).2.2.1
      [{ ID := [10], Edges := ([1], [2]), Type_ := "messaging", LogEntry := none }]
      { ID := [11], Edges := ([3], [5]), Type_ := "messaging", LogEntry := none }
      [{ ID := [12], Edges := ([1], [4]), Type_ := "messaging", LogEntry := none }]
      rfl (by decide) (by decide)).1,
    (Transports_stops_at_unresolved brokenWalkTM noFilter []).1⟩

end Skywire
